import Mathlib

/-!
Verification of the stremfy request-pipeline and cache-warming engine.

Go strings are modelled as lists of bytes (`GoStr := List Nat`), restricted to
the ASCII fragment the pipeline manipulates (hashes, titles, filenames): the
Go standard-library operations `strings.ToLower`, `strings.TrimSpace`,
`hex.DecodeString` are embedded byte-for-byte for ASCII inputs.  Machine
integers (`int`, `int64`, `time.Time`, `time.Duration`) are modelled as `Int`.
-/

namespace Stremfy

/-- A Go string, as a list of bytes. -/
abbrev GoStr := List Nat

/-- `unicode.IsSpace` on an ASCII byte (the set trimmed by `strings.TrimSpace`). -/
def isSpaceB (b : Nat) : Bool :=
  b = 32 || b = 9 || b = 10 || b = 11 || b = 12 || b = 13

/-- ASCII lower-casing of one byte, as `strings.ToLower` acts on ASCII letters. -/
def lowerB (b : Nat) : Nat :=
  if 65 ≤ b ∧ b ≤ 90 then b + 32 else b

/-- `strings.ToLower` on an ASCII string. -/
def toLowerB (s : GoStr) : GoStr := s.map lowerB

/-- Leading-whitespace trim. -/
def trimLeftB (s : GoStr) : GoStr := s.dropWhile isSpaceB

/-- `strings.TrimSpace`: drop leading and trailing whitespace. -/
def trimSpaceB (s : GoStr) : GoStr :=
  ((s.dropWhile isSpaceB).reverse.dropWhile isSpaceB).reverse

/-- Value of one hex digit byte, as accepted by Go `encoding/hex`. -/
def hexDigitVal (b : Nat) : Option Nat :=
  if 48 ≤ b ∧ b ≤ 57 then some (b - 48)
  else if 97 ≤ b ∧ b ≤ 102 then some (b - 87)
  else if 65 ≤ b ∧ b ≤ 70 then some (b - 55)
  else none

/-- `hex.DecodeString`: decode pairs of hex digits to bytes; fails on an odd
length or a non-hex byte. -/
def hexDecodeB : GoStr → Option (List Nat)
  | [] => some []
  | [_] => none
  | a :: b :: rest =>
    match hexDigitVal a, hexDigitVal b, hexDecodeB rest with
    | some x, some y, some r => some ((16 * x + y) :: r)
    | _, _, _ => none

/-- Final validation step of `normalizeInfoHash`: lower-case, then accept only
a 40-byte result. -/
def finishNorm (x : GoStr) : GoStr :=
  if (toLowerB x).length = 40 then toLowerB x else []

/-- `scrapers.normalizeInfoHash` (src/unnamed/part_007): trim, decode an
80-char value as hex, lower-case, and require length 40. -/
def normalizeInfoHash (h : GoStr) : GoStr :=
  if (trimSpaceB h).length = 80 then
    match hexDecodeB (trimSpaceB h) with
    | none => []
    | some d => finishNorm d
  else
    finishNorm (trimSpaceB h)

/-- A byte is a lowercase hex digit. -/
def isLowerHexDigit (b : Nat) : Bool :=
  (48 ≤ b && b ≤ 57) || (97 ≤ b && b ≤ 102)

/-- A string is 40 lowercase hex characters. -/
def is40LowerHex (s : GoStr) : Bool :=
  s.length = 40 && s.all isLowerHexDigit

/-- 80 hex characters decoding to 40 space bytes: the literal "20" repeated
40 times. -/
def cexHash20 : GoStr := (List.replicate 40 [50, 48]).flatten

/-- 80 hex characters decoding to 40 `A` bytes: the literal "41" repeated
40 times. -/
def cexHash41 : GoStr := (List.replicate 40 [52, 49]).flatten

theorem lowerB_lowerB (b : Nat) : lowerB (lowerB b) = lowerB b := by
  unfold lowerB
  by_cases hb : 65 ≤ b ∧ b ≤ 90
  · simp only [if_pos hb]
    rw [if_neg (by omega)]
  · simp only [if_neg hb]

theorem toLowerB_toLowerB (s : GoStr) : toLowerB (toLowerB s) = toLowerB s := by
  induction s with
  | nil => rfl
  | cons b rest ih =>
    simp only [toLowerB, List.map_cons] at *
    rw [lowerB_lowerB]
    exact congrArg _ (by simpa [toLowerB] using ih)

theorem finishNorm_cases (x : GoStr) :
    finishNorm x = [] ∨
      ∃ y, finishNorm x = toLowerB y ∧ (finishNorm x).length = 40 := by
  unfold finishNorm
  split
  · next hl => exact Or.inr ⟨x, rfl, hl⟩
  · exact Or.inl rfl

theorem normalizeInfoHash_cases (h : GoStr) :
    normalizeInfoHash h = [] ∨
      ∃ y, normalizeInfoHash h = toLowerB y ∧ (normalizeInfoHash h).length = 40 := by
  unfold normalizeInfoHash
  split
  · split
    · exact Or.inl rfl
    · exact finishNorm_cases _
  · exact finishNorm_cases _

/-- C2 (counterexample): on the 80-hex input "2020…20", the normalizer is not
idempotent (the output is 40 space bytes, which a second pass trims away) and
the output is neither empty nor 40 lowercase hex characters. -/
theorem normalizeInfoHash_counterexample :
    ¬ (normalizeInfoHash (normalizeInfoHash cexHash20) = normalizeInfoHash cexHash20 ∧
       (normalizeInfoHash cexHash20 = [] ∨
        is40LowerHex (normalizeInfoHash cexHash20) = true)) := by
  decide

/-- C2 (amended): the normalizer output is always either empty or exactly
40 bytes long, and the normalizer is idempotent on every input whose output
carries no leading or trailing whitespace (the only escape is an 80-hex input
whose decoded bytes begin or end with whitespace). -/
theorem normalizeInfoHash_shape_idem (h : GoStr) :
    (normalizeInfoHash h = [] ∨ (normalizeInfoHash h).length = 40) ∧
    (trimSpaceB (normalizeInfoHash h) = normalizeInfoHash h →
      normalizeInfoHash (normalizeInfoHash h) = normalizeInfoHash h) := by
  rcases normalizeInfoHash_cases h with h0 | ⟨y, hy, hlen⟩
  · refine ⟨Or.inl h0, fun _ => ?_⟩
    rw [h0]
    decide
  · refine ⟨Or.inr hlen, fun htr => ?_⟩
    have hlow : toLowerB (normalizeInfoHash h) = normalizeInfoHash h := by
      rw [hy, toLowerB_toLowerB]
    generalize hout : normalizeInfoHash h = out at hlen htr hlow ⊢
    unfold normalizeInfoHash
    rw [htr, hlen]
    rw [if_neg (by omega)]
    unfold finishNorm
    rw [hlow, hlen, if_pos rfl]

/-- C2 witness: a concrete 80-hex input where the amended theorem has its
idempotence hypothesis holds. -/
theorem normalizeInfoHash_shape_idem_witness :
    (normalizeInfoHash cexHash41 = [] ∨ (normalizeInfoHash cexHash41).length = 40) ∧
    normalizeInfoHash (normalizeInfoHash cexHash41) = normalizeInfoHash cexHash41 :=
  ⟨(normalizeInfoHash_shape_idem cexHash41).1,
   (normalizeInfoHash_shape_idem cexHash41).2 (by decide)⟩

/-! ### Association-list model of Go maps -/

/-- Lookup in a Go map modelled as an association list (newest binding first). -/
def alookup {κ α : Type} [DecidableEq κ] (k : κ) : List (κ × α) → Option α
  | [] => none
  | (k', v) :: rest => if k' = k then some v else alookup k rest

/-- Map assignment `m[k] = v` (the new binding shadows any older one). -/
def ainsert {κ α : Type} [DecidableEq κ] (k : κ) (v : α) (st : List (κ × α)) :
    List (κ × α) :=
  (k, v) :: st

/-- Map deletion `delete(m, k)`: removes every binding of `k`. -/
def aerase {κ α : Type} [DecidableEq κ] (k : κ) : List (κ × α) → List (κ × α)
  | [] => []
  | p :: rest => if p.1 = k then aerase k rest else p :: aerase k rest

theorem alookup_ainsert_self {κ α : Type} [DecidableEq κ] (k : κ) (v : α)
    (st : List (κ × α)) : alookup k (ainsert k v st) = some v := by
  simp [alookup, ainsert]

theorem alookup_ainsert_ne {κ α : Type} [DecidableEq κ] {k k' : κ} (v : α)
    (st : List (κ × α)) (h : k' ≠ k) : alookup k (ainsert k' v st) = alookup k st := by
  simp [alookup, ainsert, h]

theorem alookup_aerase_ne {κ α : Type} [DecidableEq κ] {k k' : κ}
    (st : List (κ × α)) (h : k' ≠ k) : alookup k (aerase k' st) = alookup k st := by
  induction st with
  | nil => rfl
  | cons p rest ih =>
    rcases p with ⟨a, b⟩
    by_cases hp : a = k'
    · have hak : ¬ a = k := by rw [hp]; exact h
      rw [show aerase k' ((a, b) :: rest) = aerase k' rest by simp [aerase, hp]]
      rw [ih]
      simp [alookup, hak]
    · rw [show aerase k' ((a, b) :: rest) = (a, b) :: aerase k' rest by
        simp [aerase, hp]]
      by_cases hak : a = k
      · simp [alookup, hak]
      · simp [alookup, hak, ih]

/-! ### 4.A Cache Store (src/caching/cache.go) -/

/-- `caching.Item`: value, expiry instant, never-expires flag. -/
structure CacheItem (α : Type) where
  value : α
  expiresAt : Int
  neverExpires : Bool
deriving DecidableEq

/-- `Cache.Get` at instant `now`: an entry is returned unless it exists,
is not permanent, and `now` is strictly after its expiry. -/
def cacheGet {α : Type} (now : Int) (st : List (GoStr × CacheItem α)) (k : GoStr) :
    Option α :=
  match alookup k st with
  | none => none
  | some it => if ¬ it.neverExpires = true ∧ it.expiresAt < now then none else some it.value

/-- `Cache.Set` at instant `now`: stores the value with expiry `now + ttl`. -/
def cacheSet {α : Type} (now : Int) (st : List (GoStr × CacheItem α)) (k : GoStr)
    (v : α) (ttl : Int) : List (GoStr × CacheItem α) :=
  ainsert k ⟨v, now + ttl, false⟩ st

/-- C3: immediately after `Set(k,v,ttl)` with `ttl > 0`, `Get(k)` returns the
value; once the clock is strictly past the expiry instant, `Get(k)` returns
nothing although the entry is still physically present; and in general a
lookup returns a value only for an item that is permanent or not expired. -/
theorem cache_get_after_set {α : Type} (now : Int) (st : List (GoStr × CacheItem α))
    (k : GoStr) (v : α) (ttl : Int) (httl : 0 < ttl) :
    cacheGet now (cacheSet now st k v ttl) k = some v ∧
    (∀ t, now + ttl < t →
      cacheGet t (cacheSet now st k v ttl) k = none ∧
      alookup k (cacheSet now st k v ttl) ≠ none) ∧
    (∀ (t : Int) (st' : List (GoStr × CacheItem α)) (k' : GoStr) (x : α),
      cacheGet t st' k' = some x →
      ∃ it, alookup k' st' = some it ∧ it.value = x ∧
        (it.neverExpires = true ∨ ¬ it.expiresAt < t)) := by
  refine ⟨?_, ?_, ?_⟩
  · unfold cacheGet cacheSet
    rw [alookup_ainsert_self]
    simp only
    rw [if_neg (by simp; omega)]
  · intro t ht
    constructor
    · unfold cacheGet cacheSet
      rw [alookup_ainsert_self]
      simp only
      rw [if_pos (by simp; omega)]
    · unfold cacheSet
      rw [alookup_ainsert_self]
      simp
  · intro t st' k' x hget
    unfold cacheGet at hget
    rcases hlk : alookup k' st' with _ | it
    · rw [hlk] at hget; simp at hget
    · rw [hlk] at hget
      have hget' :
          (if ¬ it.neverExpires = true ∧ it.expiresAt < t then none
            else some it.value) = some x := hget
      by_cases hc : ¬ it.neverExpires = true ∧ it.expiresAt < t
      · rw [if_pos hc] at hget'; simp at hget'
      · rw [if_neg hc] at hget'
        refine ⟨it, rfl, by simpa using hget', ?_⟩
        by_cases hne : it.neverExpires = true
        · exact Or.inl hne
        · exact Or.inr (fun hexp => hc ⟨hne, hexp⟩)

/-- C3 witness: concrete set-then-get at `ttl = 5`, read back at times 0 and 6. -/
theorem cache_get_after_set_witness :
    cacheGet 0 (cacheSet 0 ([] : List (GoStr × CacheItem Nat)) [] 7 5) [] = some 7 ∧
    cacheGet 6 (cacheSet 0 ([] : List (GoStr × CacheItem Nat)) [] 7 5) [] = none :=
  ⟨(cache_get_after_set 0 [] [] 7 5 (by decide)).1,
   ((cache_get_after_set 0 [] [] 7 5 (by decide)).2.1 6 (by decide)).1⟩

/-! ### 4.C Title Matcher (src/unnamed/part_008) -/

/-- `scrapers.TitleMatcher`: holds the word-match minimum score. -/
structure TitleMatcher where
  minScore : Int
deriving DecidableEq

/-- `scrapers.NewTitleMatcher`: a zero minimum score falls back to the
default of 70 percent. -/
def NewTitleMatcher (minScore : Int) : TitleMatcher :=
  if minScore = 0 then ⟨70⟩ else ⟨minScore⟩

/-- C9 (counterexample): the matcher constructed with the zero value does not
have minimum score 85. -/
theorem titleMatcher_default_counterexample :
    ¬ (NewTitleMatcher 0).minScore = 85 := by decide

/-- C9 (amended): when the title matcher is constructed without an explicit
minimum score (the zero value), its word-match minimum score is 70 percent. -/
theorem titleMatcher_default_70 : (NewTitleMatcher 0).minScore = 70 := rfl

/-! ### 4.I Task Deduplicator (src/unnamed/part_002) -/

/-- `TaskDeduplicator.ShouldQueue` at instant `now`: reject when a record
exists and is younger than `maxAge`; otherwise record `now` and accept.
Returns the decision and the new `pending` map. -/
def sqShouldQueue {κ : Type} [DecidableEq κ] (now : Int) (id : κ) (maxAge : Int)
    (st : List (κ × Int)) : Bool × List (κ × Int) :=
  match alookup id st with
  | some t0 => if now - t0 < maxAge then (false, st) else (true, ainsert id now st)
  | none => (true, ainsert id now st)

/-- One call against the deduplicator: `ShouldQueue` or `Remove`. -/
inductive TDOp (κ : Type) where
  | sq (id : κ) (maxAge : Int)
  | rm (id : κ)
deriving DecidableEq

/-- A timestamped deduplicator call. -/
structure TDEvent (κ : Type) where
  time : Int
  op : TDOp κ
deriving DecidableEq

/-- Effect of one call on the `pending` map. -/
def tdStep {κ : Type} [DecidableEq κ] (st : List (κ × Int)) (e : TDEvent κ) :
    List (κ × Int) :=
  match e.op with
  | .sq id d => (sqShouldQueue e.time id d st).2
  | .rm id => aerase id st

/-- The `pending` map after a sequence of calls. -/
def tdStateAfter {κ : Type} [DecidableEq κ] (st : List (κ × Int))
    (evs : List (TDEvent κ)) : List (κ × Int) :=
  evs.foldl tdStep st

theorem tdStateAfter_cons {κ : Type} [DecidableEq κ] (st : List (κ × Int))
    (e : TDEvent κ) (evs : List (TDEvent κ)) :
    tdStateAfter st (e :: evs) = tdStateAfter (tdStep st e) evs := rfl

/-- Between two calls, a record for `id` survives with a timestamp in the
window spanned by the events, as long as no `Remove(id)` intervenes. -/
theorem td_record_persists {κ : Type} [DecidableEq κ] (l2 : List (TDEvent κ))
    (id : κ) (t2 : Int) :
    ∀ (st : List (κ × Int)) (t1 : Int), alookup id st = some t1 → t1 ≤ t2 →
    (∀ e ∈ l2, e.op ≠ TDOp.rm id) →
    (∀ e ∈ l2, t1 ≤ e.time ∧ e.time ≤ t2) →
    l2.Pairwise (fun a b => a.time ≤ b.time) →
    ∃ t', alookup id (tdStateAfter st l2) = some t' ∧ t1 ≤ t' ∧ t' ≤ t2 := by
  induction l2 with
  | nil => exact fun st t1 hlk h12 _ _ _ => ⟨t1, hlk, le_refl t1, h12⟩
  | cons e rest ih =>
    intro st t1 hlk h12 hnorm htimes hpw
    have het : t1 ≤ e.time ∧ e.time ≤ t2 := htimes e (by simp)
    have hpw' : rest.Pairwise (fun a b => a.time ≤ b.time) := (List.pairwise_cons.mp hpw).2
    have hhead : ∀ e' ∈ rest, e.time ≤ e'.time := (List.pairwise_cons.mp hpw).1
    have hnorm' : ∀ e' ∈ rest, e'.op ≠ TDOp.rm id := fun e' he' => hnorm e' (by simp [he'])
    rw [tdStateAfter_cons]
    match hop : e.op with
    | .sq id' d =>
      have hstep : tdStep st e = (sqShouldQueue e.time id' d st).2 := by
        unfold tdStep; rw [hop]
      by_cases hid : id' = id
      · subst hid
        unfold sqShouldQueue at hstep
        rw [hlk] at hstep
        have hstep2 : tdStep st e =
            (if e.time - t1 < d then (false, st)
              else (true, ainsert id' e.time st)).2 := hstep
        by_cases hyoung : e.time - t1 < d
        · rw [if_pos hyoung] at hstep2
          rw [hstep2]
          exact ih st t1 hlk h12 hnorm'
            (fun e' he' => ⟨(htimes e' (by simp [he'])).1, (htimes e' (by simp [he'])).2⟩) hpw'
        · rw [if_neg hyoung] at hstep2
          rw [hstep2]
          have hlk' : alookup id' (ainsert id' e.time st) = some e.time :=
            alookup_ainsert_self id' e.time st
          rcases ih (ainsert id' e.time st) e.time hlk' het.2 hnorm'
            (fun e' he' => ⟨hhead e' he', (htimes e' (by simp [he'])).2⟩) hpw' with
            ⟨t', ht', h1, h2⟩
          exact ⟨t', ht', le_trans het.1 h1, h2⟩
      · have hlk' : alookup id (tdStep st e) = some t1 := by
          rw [hstep]
          unfold sqShouldQueue
          rcases hl : alookup id' st with _ | t0
          · simp only
            rw [alookup_ainsert_ne _ _ hid, hlk]
          · simp only
            by_cases hy : e.time - t0 < d
            · rw [if_pos hy]; exact hlk
            · rw [if_neg hy]
              simp only
              rw [alookup_ainsert_ne _ _ hid, hlk]
        exact ih (tdStep st e) t1 hlk' h12 hnorm'
          (fun e' he' => ⟨(htimes e' (by simp [he'])).1, (htimes e' (by simp [he'])).2⟩) hpw'
    | .rm id' =>
      have hid : id' ≠ id := by
        intro hcontra
        exact hnorm e (by simp) (by rw [hop, hcontra])
      have hlk' : alookup id (tdStep st e) = some t1 := by
        unfold tdStep
        rw [hop]
        rw [alookup_aerase_ne st hid]
        exact hlk
      exact ih (tdStep st e) t1 hlk' h12 hnorm'
        (fun e' he' => ⟨(htimes e' (by simp [he'])).1, (htimes e' (by simp [he'])).2⟩) hpw'

/-- C8 (amended): `ShouldQueue` accepts exactly when no record exists or the
record is at least `maxAge` old; on accept it records the current instant, a
rejected call leaves the map untouched; and in any run with non-decreasing
timestamps, two accepting `ShouldQueue(id, d)` calls with no intervening
`Remove(id)` are at least `d` apart — so `true` is returned at most once per
half-open window of length `d`. -/
theorem shouldQueue_dedup_window {κ : Type} [DecidableEq κ] :
    (∀ (now : Int) (id : κ) (d : Int) (st : List (κ × Int)),
      ((sqShouldQueue now id d st).1 = true ↔
        alookup id st = none ∨ ∃ t0, alookup id st = some t0 ∧ d ≤ now - t0) ∧
      ((sqShouldQueue now id d st).1 = true →
        alookup id (sqShouldQueue now id d st).2 = some now) ∧
      ((sqShouldQueue now id d st).1 = false → (sqShouldQueue now id d st).2 = st)) ∧
    (∀ (st : List (κ × Int)) (t1 t2 d : Int) (id : κ) (l2 : List (TDEvent κ)),
      t1 ≤ t2 →
      (∀ e ∈ l2, e.op ≠ TDOp.rm id) →
      (∀ e ∈ l2, t1 ≤ e.time ∧ e.time ≤ t2) →
      l2.Pairwise (fun a b => a.time ≤ b.time) →
      (sqShouldQueue t1 id d st).1 = true →
      (sqShouldQueue t2 id d (tdStateAfter (sqShouldQueue t1 id d st).2 l2)).1 = true →
      t1 + d ≤ t2) := by
  have hbase : ∀ (now : Int) (id : κ) (d : Int) (st : List (κ × Int)),
      ((sqShouldQueue now id d st).1 = true ↔
        alookup id st = none ∨ ∃ t0, alookup id st = some t0 ∧ d ≤ now - t0) ∧
      ((sqShouldQueue now id d st).1 = true →
        alookup id (sqShouldQueue now id d st).2 = some now) ∧
      ((sqShouldQueue now id d st).1 = false → (sqShouldQueue now id d st).2 = st) := by
    intro now id d st
    unfold sqShouldQueue
    rcases hl : alookup id st with _ | t0
    · simp only
      refine ⟨by simp, fun _ => alookup_ainsert_self id now st, by simp⟩
    · simp only
      by_cases hy : now - t0 < d
      · rw [if_pos hy]
        refine ⟨?_, by simp, fun _ => rfl⟩
        simp only [Bool.false_eq_true, false_iff]
        rintro (hnone | ⟨t0', ht0', hd⟩)
        · cases hnone
        · cases ht0'
          omega
      · rw [if_neg hy]
        refine ⟨?_, fun _ => alookup_ainsert_self id now st, by simp⟩
        simp only [true_iff]
        exact Or.inr ⟨t0, rfl, by omega⟩
  refine ⟨hbase, ?_⟩
  intro st t1 t2 d id l2 h12 hnorm htimes hpw hacc1 hacc2
  have hlk1 : alookup id (sqShouldQueue t1 id d st).2 = some t1 :=
    (hbase t1 id d st).2.1 hacc1
  rcases td_record_persists l2 id t2 (sqShouldQueue t1 id d st).2 t1 hlk1 h12
    hnorm htimes hpw with ⟨t', hlk2, ht1t', ht't2⟩
  have := ((hbase t2 id d (tdStateAfter (sqShouldQueue t1 id d st).2 l2)).1).mp hacc2
  rcases this with hnone | ⟨t0, ht0, hd⟩
  · rw [hlk2] at hnone; cases hnone
  · rw [hlk2] at ht0
    cases ht0
    omega

/-- C8 witness: accept at time 0, an unrelated call at time 2, accept again at
time 7 ≥ 0 + 5; plus the accept-records-now fact at a concrete state. -/
theorem shouldQueue_dedup_window_witness :
    alookup 0 (sqShouldQueue 0 (0 : Nat) 5 []).2 = some 0 ∧ (0 : Int) + 5 ≤ 7 :=
  ⟨(shouldQueue_dedup_window.1 0 0 5 []).2.1 (by decide),
   shouldQueue_dedup_window.2 [] 0 7 5 0 [⟨2, .sq 1 5⟩] (by decide) (by decide)
     (by decide) (by decide) (by decide) (by decide)⟩

/-- C8 (counterexample): after an accept at time 0, a second
`ShouldQueue(id, 5)` at time 5 also accepts, although the existing record has
age exactly 5 and is therefore not older than the window — two accepts inside
one closed interval of length 5. -/
theorem shouldQueue_boundary_counterexample :
    (sqShouldQueue 5 (0 : Nat) 5 (sqShouldQueue 0 (0 : Nat) 5 []).2).1 = true ∧
    alookup 0 (sqShouldQueue 0 (0 : Nat) 5 []).2 = some 0 ∧
    ¬ ((5 : Int) - 0 > 5) := by decide

/-! ### Byte-level regular-expression pieces

The Go code matches a handful of fixed `regexp` patterns (RE2, Perl-style
leftmost-first matching).  Each pattern is embedded as a direct backtracking
matcher over the lowercased byte string; `\s` is the RE2 Perl class
`[\t\n\f\r ]`, `\d` is `[0-9]`, `\b` a word boundary, and `\D|$` a non-digit
or end of input. -/

/-- ASCII string literal helper (code points; equal to the bytes for ASCII). -/
def strB (s : String) : GoStr := s.data.map Char.toNat

/-- `\d`. -/
def isDigitB (b : Nat) : Bool := 48 ≤ b && b ≤ 57

/-- RE2 `\s`: tab, newline, form feed, carriage return, space. -/
def isPerlSpace (b : Nat) : Bool := b = 9 || b = 10 || b = 12 || b = 13 || b = 32

/-- A word byte (for `\b`). -/
def isWordB (b : Nat) : Bool :=
  isDigitB b || (97 ≤ b && b ≤ 122) || (65 ≤ b && b ≤ 90) || b = 95

/-- `[\s\._-]`, the separator class of the episode patterns. -/
def isSepB (b : Nat) : Bool := isPerlSpace b || b = 46 || b = 95 || b = 45

/-- `[.\s]`, the separator class of the `season <S>.<E>` pattern. -/
def isDotSpaceB (b : Nat) : Bool := b = 46 || isPerlSpace b

/-- Match a literal byte string, then continue. -/
def litK (lit : GoStr) (k : GoStr → Bool) : GoStr → Bool :=
  match lit with
  | [] => k
  | l :: ls => fun s =>
    match s with
    | [] => false
    | c :: cs => c == l && litK ls k cs

/-- `X*` for a byte class `cls` (existential semantics). -/
def clsStar (cls : Nat → Bool) (k : GoStr → Bool) : GoStr → Bool
  | [] => k []
  | c :: rest => k (c :: rest) || (cls c && clsStar cls k rest)

/-- `X+` for a byte class `cls`. -/
def clsPlus (cls : Nat → Bool) (k : GoStr → Bool) : GoStr → Bool :=
  fun s =>
    match s with
    | [] => false
    | c :: rest => cls c && clsStar cls k rest

/-- `0*` followed by the decimal digits of `n`, then continue. -/
def zeroStarNum (n : Nat) (k : GoStr → Bool) : GoStr → Bool :=
  clsStar (fun b => b == 48) (litK (strB (toString n)) k)

/-- `(?:\D|$)`: end of input or one non-digit byte closing the pattern. -/
def endNonDigit : GoStr → Bool
  | [] => true
  | c :: _ => !isDigitB c

/-- Word boundary before a word byte: start of input or a non-word byte. -/
def wordBoundary : Option Nat → Bool
  | none => true
  | some c => !isWordB c

/-- Try a pattern at every position, keeping track of the previous byte. -/
def scanB (m : Option Nat → GoStr → Bool) : Option Nat → GoStr → Bool
  | prev, [] => m prev []
  | prev, c :: rest => m prev (c :: rest) || scanB m (some c) rest

/-- `MatchString` for a pattern `m`. -/
def matchIn (m : Option Nat → GoStr → Bool) (s : GoStr) : Bool :=
  scanB m none s

/-! ### 4.E File Selector (src/unnamed/part_001, src/unnamed/part_010) -/

/-- `\bs0*%de0*%d(?:\D|$)` — `S01E01` style. -/
def epP1 (s e : Nat) : Option Nat → GoStr → Bool :=
  fun prev l =>
    wordBoundary prev &&
      litK [115] (zeroStarNum s (litK [101] (zeroStarNum e endNonDigit))) l

/-- `\b0*%dx0*%d(?:\D|$)` — `1x01` style. -/
def epP2 (s e : Nat) : Option Nat → GoStr → Bool :=
  fun prev l =>
    wordBoundary prev && zeroStarNum s (litK [120] (zeroStarNum e endNonDigit)) l

/-- `\bs0*%d-e0*%d(?:\D|$)` — `S01-E01` style. -/
def epP3 (s e : Nat) : Option Nat → GoStr → Bool :=
  fun prev l =>
    wordBoundary prev &&
      litK [115] (zeroStarNum s (litK [45, 101] (zeroStarNum e endNonDigit))) l

/-- `\bs0*%d\s+e0*%d(?:\D|$)` — `S01 E01` style. -/
def epP4 (s e : Nat) : Option Nat → GoStr → Bool :=
  fun prev l =>
    wordBoundary prev &&
      litK [115]
        (zeroStarNum s (clsPlus isPerlSpace (litK [101] (zeroStarNum e endNonDigit)))) l

/-- `\bseason\s+0*%d[.\s]+0*%d(?:\D|$)` — `Season 1.01` style. -/
def epP5 (s e : Nat) : Option Nat → GoStr → Bool :=
  fun prev l =>
    wordBoundary prev &&
      litK (strB "season")
        (clsPlus isPerlSpace
          (zeroStarNum s (clsPlus isDotSpaceB (zeroStarNum e endNonDigit)))) l

/-- `\b0*%d\.0*%d(?:\D|$)` — dotted `1.01` style. -/
def epP6 (s e : Nat) : Option Nat → GoStr → Bool :=
  fun prev l =>
    wordBoundary prev && zeroStarNum s (litK [46] (zeroStarNum e endNonDigit)) l

/-- `\b(?:episode|ep|e)[\s\._-]*0*%d(?:\D|$)` — episode-only pattern. -/
def epOnlyP (e : Nat) : Option Nat → GoStr → Bool :=
  fun prev l =>
    wordBoundary prev &&
      (litK (strB "episode") (clsStar isSepB (zeroStarNum e endNonDigit)) l ||
       litK (strB "ep") (clsStar isSepB (zeroStarNum e endNonDigit)) l ||
       litK (strB "e") (clsStar isSepB (zeroStarNum e endNonDigit)) l)

/-- `e0*\d+[\s\._-]*-[\s\._-]*e?0*\d+` — the episode-range reject pattern. -/
def epRangeP : Option Nat → GoStr → Bool :=
  fun _ l =>
    litK [101]
      (clsStar (fun b => b == 48)
        (clsPlus isDigitB
          (clsStar isSepB
            (litK [45]
              (clsStar isSepB
                (fun r =>
                  litK [101] (clsStar (fun b => b == 48) (clsPlus isDigitB (fun _ => true))) r ||
                  clsStar (fun b => b == 48) (clsPlus isDigitB (fun _ => true)) r)))))) l

/-- `\bs0*%d(?:\D|$)` — season marker in a directory name. -/
def dirP1 (s : Nat) : Option Nat → GoStr → Bool :=
  fun prev l => wordBoundary prev && litK [115] (zeroStarNum s endNonDigit) l

/-- `\bseason[\s\._-]*0*%d(?:\D|$)`. -/
def dirP2 (s : Nat) : Option Nat → GoStr → Bool :=
  fun prev l =>
    wordBoundary prev && litK (strB "season") (clsStar isSepB (zeroStarNum s endNonDigit)) l

/-- `\btemporada[\s\._-]*0*%d(?:\D|$)`. -/
def dirP3 (s : Nat) : Option Nat → GoStr → Bool :=
  fun prev l =>
    wordBoundary prev &&
      litK (strB "temporada") (clsStar isSepB (zeroStarNum s endNonDigit)) l

/-- `strings.Split(name, "/")`. -/
def splitSlash : GoStr → List GoStr
  | [] => [[]]
  | c :: rest =>
    match splitSlash rest, c == 47 with
    | r, true => [] :: r
    | [], false => [[c]]
    | h :: t, false => (c :: h) :: t

/-- The last path segment (the actual filename). -/
def lastPart (l : GoStr) : GoStr := (splitSlash l).getLastD []

/-- The parent directory segment. -/
def dirPart (l : GoStr) : GoStr :=
  (splitSlash l).getD ((splitSlash l).length - 2) []

/-- `debrid.IsEpisodeFile` (src/unnamed/part_001): reject episode ranges in
the basename; accept a season+episode pattern in the basename; otherwise fall
back to a season marker in the parent directory plus an episode-only marker
in the basename. -/
def IsEpisodeFile (filename : GoStr) (season episode : Nat) : Bool :=
  let lowerName := toLowerB filename
  let actual := lastPart lowerName
  if matchIn epRangeP actual then false
  else if matchIn (epP1 season episode) actual || matchIn (epP2 season episode) actual ||
      matchIn (epP3 season episode) actual || matchIn (epP4 season episode) actual ||
      matchIn (epP5 season episode) actual || matchIn (epP6 season episode) actual then
    true
  else if 1 < (splitSlash lowerName).length then
    (matchIn (dirP1 season) (dirPart lowerName) ||
     matchIn (dirP2 season) (dirPart lowerName) ||
     matchIn (dirP3 season) (dirPart lowerName)) &&
    matchIn (epOnlyP episode) actual
  else false

/-- `filepath.Ext`: the suffix from the final dot of the final path element. -/
def extRev : GoStr → GoStr → GoStr
  | [], _ => []
  | c :: rest, acc =>
    if c = 47 then [] else if c = 46 then 46 :: acc else extRev rest (c :: acc)

/-- Extension of a path. -/
def extB (path : GoStr) : GoStr := extRev path.reverse []

/-- The fixed video-extension set of `debrid.videoExtensions`. -/
def videoExts : List GoStr :=
  [strB ".mp4", strB ".mkv", strB ".avi", strB ".mov", strB ".wmv", strB ".flv",
   strB ".webm", strB ".m4v", strB ".mpg", strB ".mpeg", strB ".m2ts", strB ".ts",
   strB ".vob", strB ".ogv"]

/-- `debrid.IsVideoFile`: extension (lower-cased) is in the video set. -/
def IsVideoFile (filename : GoStr) : Bool :=
  decide (toLowerB (extB filename) ∈ videoExts)

/-- `debrid.IsFileSizeValid`: 50 MiB floor for series, 500 MiB for movies. -/
def IsFileSizeValid (size : Int) (isSeries : Bool) : Bool :=
  if isSeries then decide (52428800 ≤ size) else decide (524288000 ≤ size)

/-- The per-file filter of `checkCacheAndBuildStreams` (src/unnamed/part_010):
a file is kept iff it is a video file, large enough, and (for series) matches
the requested episode. -/
def fileSelected (name : GoStr) (size : Int) (isSeries : Bool) (s e : Nat) : Bool :=
  IsVideoFile name && IsFileSizeValid size isSeries &&
    (!isSeries || IsEpisodeFile name s e)

/-- C5: a file is selected for the response only if (i) its extension,
case-insensitively, is in the fixed video-extension set, (ii) its size meets
the 50 MiB series / 500 MiB movie floor, and (iii) for a series request it
matches the requested episode; and a basename containing an episode range is
rejected regardless of the other patterns. -/
theorem fileSelection_spec (name : GoStr) (size : Int) (isSeries : Bool) (s e : Nat) :
    (fileSelected name size isSeries s e = true →
      toLowerB (extB name) ∈ videoExts ∧
      (if isSeries = true then (52428800 : Int) ≤ size else (524288000 : Int) ≤ size) ∧
      (isSeries = true → IsEpisodeFile name s e = true)) ∧
    (isSeries = true → matchIn epRangeP (lastPart (toLowerB name)) = true →
      fileSelected name size isSeries s e = false) := by
  constructor
  · intro hsel
    simp only [fileSelected, Bool.and_eq_true, Bool.or_eq_true, Bool.not_eq_true'] at hsel
    obtain ⟨⟨hv, hs⟩, he⟩ := hsel
    refine ⟨of_decide_eq_true (by simpa [IsVideoFile] using hv), ?_, ?_⟩
    · unfold IsFileSizeValid at hs
      by_cases hsr : isSeries = true
      · rw [if_pos hsr] at hs ⊢
        exact of_decide_eq_true hs
      · rw [if_neg hsr] at hs ⊢
        exact of_decide_eq_true hs
    · intro hsr
      rcases he with hnot | hep
      · rw [hsr] at hnot; cases hnot
      · exact hep
  · intro hsr hrange
    have hep : IsEpisodeFile name s e = false := by
      simp only [IsEpisodeFile]
      rw [hrange]
      simp
    simp [fileSelected, hsr, hep]

/-- C5 witness: the folder-derived file `Show/Season 2/show.ep05.1080p.mkv`
at 120 MiB is selected for `(series, season 2, episode 5)`, so the three
conditions hold for it. -/
theorem fileSelection_spec_witness :
    toLowerB (extB (strB "Show/Season 2/show.ep05.1080p.mkv")) ∈ videoExts ∧
    (if (true : Bool) = true then (52428800 : Int) ≤ 125829120
      else (524288000 : Int) ≤ 125829120) ∧
    (true = true → IsEpisodeFile (strB "Show/Season 2/show.ep05.1080p.mkv") 2 5 = true) :=
  (fileSelection_spec (strB "Show/Season 2/show.ep05.1080p.mkv") 125829120 true 2 5).1
    (by decide)

/-! ### 4.D Pack Classifier (src/scrapers/generic.go, used by jackett.Scrape) -/

/-- `(\d{1,2})` with Perl greedy backtracking, feeding the parsed value and
the remaining input to a continuation. -/
def digits12 {α : Type} (k : Nat → GoStr → Option α) : GoStr → Option α
  | [] => none
  | c1 :: rest1 =>
    if isDigitB c1 then
      (match rest1 with
       | c2 :: rest2 =>
         if isDigitB c2 then k (10 * (c1 - 48) + (c2 - 48)) rest2 else none
       | [] => none) <|> k (c1 - 48) rest1
    else none

/-- Match a literal, then continue (submatch-extraction variant). -/
def litOpt {α : Type} (lit : GoStr) (k : GoStr → Option α) : GoStr → Option α :=
  match lit with
  | [] => k
  | l :: ls => fun s =>
    match s with
    | [] => none
    | c :: cs => if c = l then litOpt ls k cs else none

/-- `s(\d{1,2})-s?(\d{1,2})` at one position: the two season groups. -/
def range1At : GoStr → Option (Nat × Nat)
  | 115 :: rest =>
    digits12 (fun a r =>
      match r with
      | 45 :: r2 =>
        (match r2 with
         | 115 :: r3 => digits12 (fun b _ => some (a, b)) r3
         | _ => none) <|> digits12 (fun b _ => some (a, b)) r2
      | _ => none) rest
  | _ => none

/-- `<word>\s(\d{1,2})-(\d{1,2})` at one position (for `season`/`temporada`). -/
def rangeWordAt (w : GoStr) : GoStr → Option (Nat × Nat) :=
  litOpt w (fun r =>
    match r with
    | c :: r1 =>
      if isPerlSpace c then
        digits12 (fun a r2 =>
          match r2 with
          | 45 :: r3 => digits12 (fun b _ => some (a, b)) r3
          | _ => none) r1
      else none
    | [] => none)

/-- `s(\d{1,2})[\s\.]*(complete|pack|completo|completa)?` at one position:
only the season group matters (the tail always matches). -/
def spec1At : GoStr → Option Nat
  | 115 :: rest => digits12 (fun n _ => some n) rest
  | _ => none

/-- `<word>\s(\d{1,2})[\s\.]*(…)?` at one position. -/
def specWordAt (w : GoStr) : GoStr → Option Nat :=
  litOpt w (fun r =>
    match r with
    | c :: r1 => if isPerlSpace c then digits12 (fun n _ => some n) r1 else none
    | [] => none)

/-- Leftmost match of a submatch extractor (`FindStringSubmatch`). -/
def findLeft {α : Type} (m : GoStr → Option α) : GoStr → Option α
  | [] => m []
  | c :: rest => m (c :: rest) <|> findLeft m rest

/-- Does `needle` start `haystack`? -/
def startsWithB : GoStr → GoStr → Bool
  | [], _ => true
  | _ :: _, [] => false
  | n :: ns, h :: hs => n == h && startsWithB ns hs

/-- `strings.Contains`. -/
def hasSubB (needle : GoStr) : GoStr → Bool
  | [] => startsWithB needle []
  | c :: hs => startsWithB needle (c :: hs) || hasSubB needle hs

/-- The complete-series keyword list of `generic.isSeasonPack`. -/
def completeSeriesKeywords : List GoStr :=
  [strB "complete series", strB "full series", strB "série completa",
   strB "serie completa", strB "show pack", strB "show.pack",
   strB "pack completo", strB "coleção completa", strB "colecao completa",
   strB " - completo", strB " - completa", strB "(completa)",
   strB "todas as temporadas", strB "todas temporadas", strB "all seasons"]

/-- `scrapers.isSeasonPack` (src/scrapers/generic.go): `true` means the
candidate is filtered out of the batch.  Season-range patterns are tried
first (retain iff the requested season lies in the range), then
specific-season patterns (retain iff the season matches), then the
complete-series keywords (retain), else filter. -/
def isSeasonPack (title : GoStr) (season : Nat) : Bool :=
  match findLeft range1At (toLowerB title) with
  | some (a, b) => !(decide (a ≤ season ∧ season ≤ b))
  | none =>
  match findLeft (rangeWordAt (strB "season")) (toLowerB title) with
  | some (a, b) => !(decide (a ≤ season ∧ season ≤ b))
  | none =>
  match findLeft (rangeWordAt (strB "temporada")) (toLowerB title) with
  | some (a, b) => !(decide (a ≤ season ∧ season ≤ b))
  | none =>
  match findLeft spec1At (toLowerB title) with
  | some n => !(decide (n = season))
  | none =>
  match findLeft (specWordAt (strB "season")) (toLowerB title) with
  | some n => !(decide (n = season))
  | none =>
  match findLeft (specWordAt (strB "temporada")) (toLowerB title) with
  | some n => !(decide (n = season))
  | none =>
  !(completeSeriesKeywords.any (fun kw => hasSubB kw (toLowerB title)))

/-- First specific-season group, in the order the source tries the
patterns. -/
def findSpecFirst (t : GoStr) : Option Nat :=
  findLeft spec1At t <|> findLeft (specWordAt (strB "season")) t <|>
    findLeft (specWordAt (strB "temporada")) t

/-- C6: for a series request with season `s`, a candidate whose title
matches the season-range pattern `s<a>-s?<b>` (leftmost groups `a`, `b`) is
retained by the filter in `Scrape` iff `a ≤ s ≤ b`; and a candidate matching no
range pattern whose first specific-season pattern yields `n` is retained iff
`n = s`. -/
theorem seasonPack_retention (title : GoStr) (s : Nat) :
    (∀ a b, findLeft range1At (toLowerB title) = some (a, b) →
      (isSeasonPack title s = false ↔ (a ≤ s ∧ s ≤ b))) ∧
    ((findLeft range1At (toLowerB title) = none ∧
      findLeft (rangeWordAt (strB "season")) (toLowerB title) = none ∧
      findLeft (rangeWordAt (strB "temporada")) (toLowerB title) = none) →
      ∀ n, findSpecFirst (toLowerB title) = some n →
        (isSeasonPack title s = false ↔ n = s)) := by
  constructor
  · intro a b hab
    unfold isSeasonPack
    rw [hab]
    simp
  · rintro ⟨h1, h2, h3⟩ n hn
    unfold isSeasonPack
    rw [h1, h2, h3]
    unfold findSpecFirst at hn
    rcases hs1 : findLeft spec1At (toLowerB title) with _ | n1
    · rcases hs2 : findLeft (specWordAt (strB "season")) (toLowerB title) with _ | n2
      · rcases hs3 : findLeft (specWordAt (strB "temporada")) (toLowerB title) with _ | n3
        · rw [hs1, hs2, hs3] at hn
          simp at hn
        · rw [hs1, hs2, hs3] at hn
          simp_all
      · rw [hs1, hs2] at hn
        simp_all
    · rw [hs1] at hn
      simp_all

/-- C6 witness: `Show S01-S03 1080p` is retained for season 2 (range 1–3
contains 2), and `Show S05` for season 4 is retained iff `5 = 4`, i.e. it is
filtered. -/
theorem seasonPack_retention_witness :
    (isSeasonPack (strB "Show S01-S03 1080p") 2 = false ↔ (1 ≤ 2 ∧ 2 ≤ 3)) ∧
    (isSeasonPack (strB "Show S05") 4 = false ↔ 5 = 4) :=
  ⟨(seasonPack_retention (strB "Show S01-S03 1080p") 2).1 1 3 (by decide),
   (seasonPack_retention (strB "Show S05") 4).2 ⟨by decide, by decide, by decide⟩ 5
     (by decide)⟩

/-! ### 4.G Hash Resolver (src/scrapers/jackett.go, processTorrent) -/

/-- `scrapers.JackettResult`. -/
structure JackettResult where
  title : GoStr
  link : GoStr
  infoHash : GoStr
  magnetUri : GoStr
  seeders : Option Int
  size : Int
  tracker : GoStr
  details : GoStr
deriving DecidableEq

/-- `scrapers.ScrapeResult`. -/
structure ScrapeResult where
  title : GoStr
  infoHash : GoStr
  fileIndex : Option Int
  seeders : Option Int
  size : Int
  tracker : GoStr
  sources : List GoStr
deriving DecidableEq

/-- The collaborators `processTorrent` calls: the permanent hash cache
(`hash_<link>` → hash and sources), the torrent download
(content, magnet hash, magnet URL, error flag), metainfo extraction
(infohash and announce list) and magnet-tracker extraction. -/
structure HashEnv where
  cacheGet : GoStr → Option (GoStr × List GoStr)
  download : GoStr → Option (List Nat) × GoStr × GoStr × Bool
  extractMeta : List Nat → Option (GoStr × List GoStr)
  extractTrackers : GoStr → List GoStr

/-- Which effectful steps `processTorrent` performed. -/
structure HashEffects where
  cacheConsulted : Bool
  downloadFetched : Bool
deriving DecidableEq

/-- `JackettScraper.processTorrent` (src/scrapers/jackett.go): consult the
permanent link cache first, then download the torrent file, and only fall
back to the raw `InfoHash` field (merely lower-cased) when both yield no
hash; skip the result entirely when no hash remains. -/
def processTorrent (env : HashEnv) (r : JackettResult) :
    List ScrapeResult × HashEffects :=
  let step1 : GoStr × List GoStr :=
    if r.link ≠ [] then
      match env.cacheGet (strB "hash_" ++ r.link) with
      | some (h, srcs) => (h, srcs)
      | none => ([], [])
    else ([], [])
  let step2 : GoStr × List GoStr × Bool :=
    if step1.1 = [] ∧ r.link ≠ [] then
      match env.download r.link with
      | (content, magnetHash, magnetURL, errFlag) =>
        if errFlag = false ∧ content.isSome then
          match env.extractMeta (content.getD []) with
          | some (mih, anns) => (toLowerB mih, anns, true)
          | none => (step1.1, step1.2, true)
        else if magnetHash ≠ [] then
          (toLowerB magnetHash, env.extractTrackers magnetURL, true)
        else (step1.1, step1.2, true)
    else (step1.1, step1.2, false)
  let step3 : GoStr × List GoStr :=
    if step2.1 = [] ∧ r.infoHash ≠ [] then
      (toLowerB r.infoHash,
       if r.magnetUri ≠ [] then env.extractTrackers r.magnetUri else step2.2.1)
    else (step2.1, step2.2.1)
  let effects : HashEffects := ⟨decide (r.link ≠ []), step2.2.2⟩
  if step3.1 = [] then ([], effects)
  else
    ([{ title := r.title, infoHash := step3.1, fileIndex := none,
        seeders := r.seeders, size := r.size, tracker := r.tracker,
        sources := step3.2 }], effects)

/-- An environment whose link cache holds `ffff…ff` for every key and whose
download always fails. -/
def cexEnv : HashEnv where
  cacheGet := fun _ => some (List.replicate 40 102, [])
  download := fun _ => (none, [], [], true)
  extractMeta := fun _ => none
  extractTrackers := fun _ => []

/-- An indexer result carrying both a link (cached) and an 80-hex raw
infohash. -/
def cexResult : JackettResult where
  title := strB "t"
  link := strB "l"
  infoHash := cexHash41
  magnetUri := []
  seeders := none
  size := 0
  tracker := []
  details := []

/-- C1 (counterexample): for a result with a non-empty 80-hex raw infohash
and a cached link, `processTorrent` consults the link cache first and returns
the cached hash — not the raw infohash run through the normalizer. -/
theorem processTorrent_rawHash_counterexample :
    (processTorrent cexEnv cexResult).1.map (fun t => t.infoHash) ≠
      [normalizeInfoHash cexResult.infoHash] ∧
    (processTorrent cexEnv cexResult).2.cacheConsulted = true := by
  decide

/-- C1 (amended): the raw infohash is only a fallback: when the result has no
link (so neither the link cache nor a torrent download is tried), a non-empty
raw infohash is returned merely lower-cased — not run through the normalizer,
so an 80-hex value stays 80 hex characters — with trackers from any magnet
URI (or the empty list). -/
theorem processTorrent_rawHash_fallback (env : HashEnv) (r : JackettResult)
    (hlink : r.link = []) (hraw : r.infoHash ≠ []) :
    processTorrent env r =
      ([{ title := r.title, infoHash := toLowerB r.infoHash, fileIndex := none,
          seeders := r.seeders, size := r.size, tracker := r.tracker,
          sources := if r.magnetUri ≠ [] then env.extractTrackers r.magnetUri
            else [] }],
       ⟨false, false⟩) := by
  have hlow : toLowerB r.infoHash ≠ [] := by
    simpa [toLowerB] using hraw
  simp only [processTorrent, hlink]
  simp [hraw, hlow]

/-- C1 witness: a linkless result with upper-case 40-hex raw infohash and no
magnet resolves to the lower-cased hash with empty sources and no effects. -/
theorem processTorrent_rawHash_fallback_witness :
    processTorrent cexEnv
      { title := strB "t", link := [], infoHash := strB "ABCDEF0123456789ABCDEF0123456789ABCDEF01",
        magnetUri := [], seeders := none, size := 0, tracker := [], details := [] } =
      ([{ title := strB "t",
          infoHash := strB "abcdef0123456789abcdef0123456789abcdef01", fileIndex := none,
          seeders := none, size := 0, tracker := [], sources := [] }],
       ⟨false, false⟩) := by
  have h := processTorrent_rawHash_fallback cexEnv
    { title := strB "t", link := [], infoHash := strB "ABCDEF0123456789ABCDEF0123456789ABCDEF01",
      magnetUri := [], seeders := none, size := 0, tracker := [], details := [] }
    (by decide) (by decide)
  rw [h]
  decide

/-! ### 4.H Stream Pipeline response (src/unnamed/part_010, handleStream) -/

/-- `stream.StreamBehaviorHints`. -/
structure StreamBehaviorHints where
  bingeGroup : GoStr
  videoSize : Int
  filename : GoStr
  notWebReady : Bool
deriving DecidableEq

/-- `stream.Stream` (the fields the ranking and response use). -/
structure Stream where
  url : GoStr
  infoHash : GoStr
  fileIdx : Int
  description : GoStr
  name : GoStr
  sources : List GoStr
  behaviorHints : StreamBehaviorHints
deriving DecidableEq

/-- `stream.StreamResponse`. -/
structure StreamResponse where
  streams : List Stream
deriving DecidableEq

/-- The comparison handed to `sort.Slice`: larger `videoSize` first. -/
def streamLe (a b : Stream) : Bool :=
  decide (b.behaviorHints.videoSize ≤ a.behaviorHints.videoSize)

/-- The `sort.Slice` call of `handleStream`, as a sort by descending
`videoSize`. -/
def sortStreamsBySize (l : List Stream) : List Stream :=
  l.mergeSort streamLe

/-- `handleStream` (src/unnamed/part_010): a failed search yields an empty
ok-response, an empty torrent list yields an empty ok-response, a failed
debrid cache check yields an empty ok-response, and otherwise the built
streams are returned sorted by size; no branch produces an error. -/
def handleStream (searchOutcome : Except GoStr (List ScrapeResult))
    (checkOutcome : Except GoStr (List Stream)) : Except GoStr StreamResponse :=
  match searchOutcome with
  | .error _ => .ok ⟨[]⟩
  | .ok torrents =>
    if torrents.length = 0 then .ok ⟨[]⟩
    else
      match checkOutcome with
      | .error _ => .ok ⟨[]⟩
      | .ok streams => .ok ⟨sortStreamsBySize streams⟩

theorem streamLe_trans (a b c : Stream) : streamLe a b → streamLe b c → streamLe a c := by
  simp only [streamLe, decide_eq_true_eq]
  omega

theorem streamLe_total (a b : Stream) : streamLe a b || streamLe b a := by
  simp only [streamLe]
  by_cases h : b.behaviorHints.videoSize ≤ a.behaviorHints.videoSize
  · simp [h]
  · simp [le_of_lt (lt_of_not_le h)]

/-- C7: every response `handleStream` returns carries its stream list sorted
by `videoSize` in descending order, and on the successful path that list is a
permutation of the built streams (ties in any order). -/
theorem handleStream_sorted (so : Except GoStr (List ScrapeResult))
    (co : Except GoStr (List Stream)) (r : StreamResponse)
    (h : handleStream so co = Except.ok r) :
    r.streams.Pairwise
      (fun a b => b.behaviorHints.videoSize ≤ a.behaviorHints.videoSize) ∧
    (∀ ts ss, so = Except.ok ts → co = Except.ok ss → ¬ ts.length = 0 →
      r.streams.Perm ss) := by
  cases so with
  | error e =>
    simp only [handleStream] at h
    cases h
    exact ⟨List.Pairwise.nil, by intro ts ss hts; cases hts⟩
  | ok torrents =>
    simp only [handleStream] at h
    by_cases hlen : torrents.length = 0
    · rw [if_pos hlen] at h
      cases h
      refine ⟨List.Pairwise.nil, ?_⟩
      intro ts ss hts hss hne
      cases hts
      exact absurd hlen hne
    · rw [if_neg hlen] at h
      cases co with
      | error e =>
        cases h
        exact ⟨List.Pairwise.nil, by intro ts ss hts hss; cases hss⟩
      | ok streams =>
        cases h
        constructor
        · have hs := List.sorted_mergeSort streamLe_trans streamLe_total streams
          exact hs.imp (fun hab => by

            simpa [streamLe] using hab)
        · intro ts ss hts hss hne
          cases hss
          exact List.mergeSort_perm streams streamLe

/-- C7 witness: a concrete two-stream response comes back sorted descending
and is a permutation of the input. -/
theorem handleStream_sorted_witness :
    ((StreamResponse.mk (sortStreamsBySize
        [⟨[], [], 0, [], [], [], ⟨[], 5, [], false⟩⟩,
         ⟨[], [], 0, [], [], [], ⟨[], 9, [], false⟩⟩])).streams.Pairwise
      (fun a b => b.behaviorHints.videoSize ≤ a.behaviorHints.videoSize)) ∧
    ((StreamResponse.mk (sortStreamsBySize
        [⟨[], [], 0, [], [], [], ⟨[], 5, [], false⟩⟩,
         ⟨[], [], 0, [], [], [], ⟨[], 9, [], false⟩⟩])).streams.Perm
      [⟨[], [], 0, [], [], [], ⟨[], 5, [], false⟩⟩,
       ⟨[], [], 0, [], [], [], ⟨[], 9, [], false⟩⟩]) := by
  have h := handleStream_sorted (Except.ok [⟨[], [], none, none, 0, [], []⟩])
    (Except.ok [⟨[], [], 0, [], [], [], ⟨[], 5, [], false⟩⟩,
                ⟨[], [], 0, [], [], [], ⟨[], 9, [], false⟩⟩])
    ⟨sortStreamsBySize
      [⟨[], [], 0, [], [], [], ⟨[], 5, [], false⟩⟩,
       ⟨[], [], 0, [], [], [], ⟨[], 9, [], false⟩⟩]⟩ rfl
  exact ⟨h.1, h.2 _ _ rfl rfl (by decide)⟩

/-- C10: the stream handler never surfaces an error: for every search outcome
and debrid-check outcome it returns an ok response with a (possibly empty)
stream list, so the HTTP 500 branch of the caller is unreachable. -/
theorem handleStream_never_errors (so : Except GoStr (List ScrapeResult))
    (co : Except GoStr (List Stream)) :
    ∃ r, handleStream so co = Except.ok r := by
  cases so with
  | error e => exact ⟨⟨[]⟩, rfl⟩
  | ok torrents =>
    by_cases hlen : torrents.length = 0
    · exact ⟨⟨[]⟩, by simp [handleStream, hlen]⟩
    · cases co with
      | error e => exact ⟨⟨[]⟩, by simp [handleStream, hlen]⟩
      | ok streams =>
        exact ⟨⟨sortStreamsBySize streams⟩, by simp [handleStream, hlen]⟩

/-! ### 4.B Infohash Extractor (src/torrentManager/torrentParser.go)

`calculateInfoHash` parses the metainfo blob with `bencode.Unmarshal` (dicts
become Go maps), re-encodes the `info` value with `bencode.Marshal` (map keys
sorted byte-lexicographically) and hex-encodes its SHA-1.  The embedding
parses dictionaries directly into canonical form (keys sorted, later
duplicates winning), which is exactly the map round-trip. -/

/-- A parsed bencode value; dictionary entries are kept in canonical
(sorted-key) order. -/
inductive Bencode where
  | int (i : Int)
  | str (s : List Nat)
  | list (l : List Bencode)
  | dict (d : List (List Nat × Bencode))

/-- Greedily read decimal digits. -/
def digitsAcc (acc : Nat) : GoStr → Nat × GoStr
  | [] => (acc, [])
  | c :: rest =>
    if isDigitB c then digitsAcc (10 * acc + (c - 48)) rest else (acc, c :: rest)

/-- Parse a bencode string `<len>:<bytes>`. -/
def parseStr (s : GoStr) : Option (List Nat × GoStr) :=
  match s with
  | c :: _ =>
    if isDigitB c then
      match digitsAcc 0 s with
      | (n, 58 :: r2) => if n ≤ r2.length then some (r2.take n, r2.drop n) else none
      | _ => none
    else none
  | [] => none

/-- Parse the body of a bencode integer `i<digits>e` (after the `i`). -/
def parseIntB (s : GoStr) : Option (Int × GoStr) :=
  match s with
  | 45 :: c :: rest =>
    if isDigitB c then
      match digitsAcc 0 (c :: rest) with
      | (n, 101 :: r2) => some (-(n : Int), r2)
      | _ => none
    else none
  | c :: rest =>
    if isDigitB c then
      match digitsAcc 0 (c :: rest) with
      | (n, 101 :: r2) => some ((n : Int), r2)
      | _ => none
    else none
  | [] => none

/-- Strict byte-lexicographic order on keys (the order `Marshal` sorts by). -/
def byteLexLt : List Nat → List Nat → Bool
  | [], [] => false
  | [], _ :: _ => true
  | _ :: _, [] => false
  | x :: xs, y :: ys => decide (x < y) || (x == y && byteLexLt xs ys)

/-- Insert an entry into a sorted entry list, replacing an equal key (map
assignment semantics). -/
def insertEntry (k : List Nat) (v : Bencode) :
    List (List Nat × Bencode) → List (List Nat × Bencode)
  | [] => [(k, v)]
  | (k', v') :: rest =>
    if k = k' then (k, v) :: rest
    else if byteLexLt k k' then (k, v) :: (k', v') :: rest
    else (k', v') :: insertEntry k v rest

/-- Canonical (map) form of raw dictionary entries: later duplicates win,
keys sorted. -/
def canonEntries (entries : List (List Nat × Bencode)) : List (List Nat × Bencode) :=
  entries.foldl (fun acc e => insertEntry e.1 e.2 acc) []

mutual

/-- Parse one bencode value (fuel-bounded; the fuel exceeds the nesting
depth whenever it exceeds the input length). -/
def parseB : Nat → GoStr → Option (Bencode × GoStr)
  | 0, _ => none
  | Nat.succ fuel, s =>
    match s with
    | [] => none
    | c :: rest =>
      if c = 105 then
        match parseIntB rest with
        | some (i, r) => some (.int i, r)
        | none => none
      else if c = 108 then
        match parseItems fuel rest with
        | some (items, r) => some (.list items, r)
        | none => none
      else if c = 100 then
        match parseEntries fuel rest with
        | some (d, r) => some (.dict (canonEntries d), r)
        | none => none
      else
        match parseStr (c :: rest) with
        | some (str, r) => some (.str str, r)
        | none => none

/-- Parse list items up to the closing `e`. -/
def parseItems : Nat → GoStr → Option (List Bencode × GoStr)
  | 0, _ => none
  | Nat.succ fuel, s =>
    match s with
    | 101 :: r => some ([], r)
    | s' =>
      match parseB fuel s' with
      | some (v, r) =>
        match parseItems fuel r with
        | some (vs, r2) => some (v :: vs, r2)
        | none => none
      | none => none

/-- Parse dictionary entries up to the closing `e`. -/
def parseEntries : Nat → GoStr → Option (List (List Nat × Bencode) × GoStr)
  | 0, _ => none
  | Nat.succ fuel, s =>
    match s with
    | 101 :: r => some ([], r)
    | s' =>
      match parseStr s' with
      | some (k, r) =>
        match parseB fuel r with
        | some (v, r2) =>
          match parseEntries fuel r2 with
          | some (kvs, r3) => some ((k, v) :: kvs, r3)
          | none => none
        | none => none
      | none => none

end

/-- `bencode.Unmarshal`: parse the whole blob. -/
def parseBencode (content : List Nat) : Option Bencode :=
  match parseB (content.length + 1) content with
  | some (v, []) => some v
  | _ => none

mutual

/-- `bencode.Marshal`: canonical bencode encoding. -/
def encB : Bencode → GoStr
  | .int i => 105 :: (strB (toString i) ++ [101])
  | .str s => strB (toString s.length) ++ 58 :: s
  | .list l => 108 :: (encList l ++ [101])
  | .dict d => 100 :: (encEntries d ++ [101])

/-- Encode list elements. -/
def encList : List Bencode → GoStr
  | [] => []
  | v :: vs => encB v ++ encList vs

/-- Encode dictionary entries (already in canonical order). -/
def encEntries : List (List Nat × Bencode) → GoStr
  | [] => []
  | (k, v) :: kvs => (strB (toString k.length) ++ 58 :: k) ++ encB v ++ encEntries kvs

end

/-! SHA-1 (FIPS 180) over byte lists, words as `Nat` reduced mod `2^32`. -/

/-- 32-bit left rotation. -/
def rotl (n x : Nat) : Nat := ((x <<< n) ||| (x >>> (32 - n))) % 4294967296

/-- Big-endian 8-byte encoding of the bit length. -/
def len64be (n : Nat) : List Nat :=
  [n >>> 56 % 256, n >>> 48 % 256, n >>> 40 % 256, n >>> 32 % 256,
   n >>> 24 % 256, n >>> 16 % 256, n >>> 8 % 256, n % 256]

/-- SHA-1 message padding to a multiple of 64 bytes: `0x80`, then the number
of zero bytes bringing the length to 56 mod 64 (`119 - r ≥ 56` for every
remainder `r ≤ 63`, so the subtraction never truncates), then the 64-bit
big-endian bit length. -/
def sha1pad (msg : List Nat) : List Nat :=
  msg ++ 128 :: (List.replicate ((119 - msg.length % 64) % 64) 0 ++
    len64be (8 * msg.length))

/-- Big-endian 4-byte groups to 32-bit words. -/
def bytesToWords : List Nat → List Nat
  | a :: b :: c :: d :: rest => (((a * 256 + b) * 256 + c) * 256 + d) :: bytesToWords rest
  | _ => []

/-- Extend the 16-word schedule to 80 words. -/
def extendSchedule : Nat → List Nat → List Nat
  | 0, w => w
  | Nat.succ n, w =>
    extendSchedule n (w ++ [rotl 1 ((((w.getD (w.length - 3) 0).xor
      (w.getD (w.length - 8) 0)).xor (w.getD (w.length - 14) 0)).xor
      (w.getD (w.length - 16) 0))])

/-- Round function. -/
def sha1f (t b c d : Nat) : Nat :=
  if t < 20 then (b &&& c) ||| ((4294967295 ^^^ b) &&& d)
  else if t < 40 then (b ^^^ c) ^^^ d
  else if t < 60 then ((b &&& c) ||| (b &&& d)) ||| (c &&& d)
  else (b ^^^ c) ^^^ d

/-- Round constants. -/
def sha1k (t : Nat) : Nat :=
  if t < 20 then 1518500249
  else if t < 40 then 1859775393
  else if t < 60 then 2400959708
  else 3395469782

/-- One compression round. -/
def sha1round (st : Nat × Nat × Nat × Nat × Nat) (t wt : Nat) :
    Nat × Nat × Nat × Nat × Nat :=
  match st with
  | (a, b, c, d, e) =>
    ((rotl 5 a + sha1f t b c d + e + sha1k t + wt) % 4294967296, a, rotl 30 b, c, d)

/-- Run the 80 rounds. -/
def sha1rounds (t : Nat) (w : List Nat) (st : Nat × Nat × Nat × Nat × Nat) :
    Nat × Nat × Nat × Nat × Nat :=
  match w with
  | [] => st
  | wt :: ws => sha1rounds (t + 1) ws (sha1round st t wt)

/-- Process one 64-byte block. -/
def sha1block (h : Nat × Nat × Nat × Nat × Nat) (block : List Nat) :
    Nat × Nat × Nat × Nat × Nat :=
  match sha1rounds 0 (extendSchedule 64 (bytesToWords block)) h with
  | (a, b, c, d, e) =>
    ((h.1 + a) % 4294967296, (h.2.1 + b) % 4294967296, (h.2.2.1 + c) % 4294967296,
     (h.2.2.2.1 + d) % 4294967296, (h.2.2.2.2 + e) % 4294967296)

/-- Split into 64-byte chunks (fuel-bounded). -/
def chunksGo : Nat → List Nat → List (List Nat)
  | 0, _ => []
  | _ + 1, [] => []
  | n + 1, l => l.take 64 :: chunksGo n (l.drop 64)

/-- The five SHA-1 state words of a message. -/
def sha1words (msg : List Nat) : Nat × Nat × Nat × Nat × Nat :=
  (chunksGo (msg.length / 64 + 2) (sha1pad msg)).foldl sha1block
    (1732584193, 4023233417, 2562383102, 271733878, 3285377520)

/-- Big-endian bytes of one word. -/
def word4be (x : Nat) : List Nat :=
  [x >>> 24 % 256, x >>> 16 % 256, x >>> 8 % 256, x % 256]

/-- The 20 digest bytes. -/
def sha1bytes (msg : List Nat) : List Nat :=
  word4be (sha1words msg).1 ++ word4be (sha1words msg).2.1 ++
    word4be (sha1words msg).2.2.1 ++ word4be (sha1words msg).2.2.2.1 ++
    word4be (sha1words msg).2.2.2.2

/-- One lowercase hex digit. -/
def hexDigit (d : Nat) : Nat := if d < 10 then 48 + d else 87 + d

/-- Two lowercase hex digits of a byte. -/
def hexByte (b : Nat) : GoStr := [hexDigit (b / 16 % 16), hexDigit (b % 16)]

/-- `fmt.Sprintf("%x", sha1.Sum(...))`: lowercase hex of the digest. -/
def sha1hex (msg : List Nat) : GoStr :=
  ((sha1bytes msg).map hexByte).flatten

/-- `torrentManager.calculateInfoHash`: error on empty input, unparseable or
non-dictionary root, or missing `info` key; otherwise the lowercase hex SHA-1
of the canonical re-encoding of the `info` value. -/
def calculateInfoHash (content : List Nat) : Except GoStr GoStr :=
  if content = [] then .error (strB "empty content")
  else
    match parseBencode content with
    | none => .error (strB "failed to unmarshal torrent")
    | some (.dict d) =>
      match alookup (strB "info") d with
      | none => .error (strB "info dictionary not found")
      | some info => .ok (sha1hex (encB info))
    | some _ => .error (strB "invalid torrent structure")

theorem hexByte_len_hex (b : Nat) :
    (hexByte b).length = 2 ∧ (hexByte b).all isLowerHexDigit = true := by
  refine ⟨rfl, ?_⟩
  have h1 : b / 16 % 16 < 16 := Nat.mod_lt _ (by omega)
  have h2 : b % 16 < 16 := Nat.mod_lt _ (by omega)
  simp only [hexByte, List.all_cons, List.all_nil, Bool.and_true, Bool.and_eq_true]
  constructor <;>
    · unfold hexDigit isLowerHexDigit
      split <;> simp <;> omega

theorem flatten_hexBytes (bs : List Nat) :
    ((bs.map hexByte).flatten).length = 2 * bs.length ∧
    ((bs.map hexByte).flatten).all isLowerHexDigit = true := by
  induction bs with
  | nil => simp
  | cons b rest ih =>
    rcases hexByte_len_hex b with ⟨h1, h2⟩
    simp only [List.map_cons, List.flatten_cons, List.length_append, List.all_append,
      List.length_cons, Bool.and_eq_true]
    exact ⟨by rw [h1, ih.1]; ring, h2, ih.2⟩

theorem sha1bytes_len (m : List Nat) : (sha1bytes m).length = 20 := by
  simp [sha1bytes, word4be]

theorem sha1hex_shape (m : List Nat) :
    (sha1hex m).length = 40 ∧ (sha1hex m).all isLowerHexDigit = true := by
  rcases flatten_hexBytes (sha1bytes m) with ⟨h1, h2⟩
  refine ⟨?_, h2⟩
  rw [sha1hex] at *
  rw [h1, sha1bytes_len]

set_option maxRecDepth 100000 in
/-- A sanity anchor: the embedded SHA-1 reproduces the standard test vector
for "abc". -/
theorem sha1hex_abc :
    sha1hex (strB "abc") = strB "a9993e364706816aba3e25717850c26c9cd0d89d" := by
  decide

set_option maxRecDepth 400000 in
/-- A padding-boundary anchor: 56 `a` bytes force the padding into a second
block (message length ≡ 56 mod 64), and the digest agrees with SHA-1. -/
theorem sha1hex_block_boundary :
    sha1hex (List.replicate 56 97) =
      strB "c2db330f6083854c99d4b5bfb6e8f29f201be699" := by
  decide

/-- C4: the infohash extractor succeeds exactly on a non-empty blob that
parses as a bencoded dictionary containing an `info` key, and then returns
the lowercase hex SHA-1 of the canonical re-encoding of the `info`
sub-dictionary — a 40-character lowercase hex string; every other input
(empty, unparseable or non-dictionary root, missing `info`) fails. -/
theorem calculateInfoHash_spec (content : List Nat) :
    ((∃ h, calculateInfoHash content = Except.ok h) ↔
      (content ≠ [] ∧ ∃ d info, parseBencode content = some (Bencode.dict d) ∧
        alookup (strB "info") d = some info)) ∧
    (∀ d info, content ≠ [] → parseBencode content = some (Bencode.dict d) →
      alookup (strB "info") d = some info →
      calculateInfoHash content = Except.ok (sha1hex (encB info)) ∧
      (sha1hex (encB info)).length = 40 ∧
      (sha1hex (encB info)).all isLowerHexDigit = true) := by
  constructor
  · constructor
    · rintro ⟨h, hok⟩
      by_cases hc : content = []
      · simp only [calculateInfoHash, if_pos hc] at hok
        cases hok
      · rcases hp : parseBencode content with _ | v
        · simp only [calculateInfoHash, if_neg hc, hp] at hok
          cases hok
        · cases v with
          | int i =>
            simp only [calculateInfoHash, if_neg hc, hp] at hok
            cases hok
          | str s =>
            simp only [calculateInfoHash, if_neg hc, hp] at hok
            cases hok
          | list l =>
            simp only [calculateInfoHash, if_neg hc, hp] at hok
            cases hok
          | dict d =>
            rcases hl : alookup (strB "info") d with _ | info
            · simp only [calculateInfoHash, if_neg hc, hp, hl] at hok
              cases hok
            · exact ⟨hc, d, info, hp ▸ rfl, hl⟩
    · rintro ⟨hne, d, info, hp, hl⟩
      exact ⟨sha1hex (encB info), by simp only [calculateInfoHash, if_neg hne, hp, hl]⟩
  · intro d info hne hp hl
    refine ⟨by simp only [calculateInfoHash, if_neg hne, hp, hl], ?_, ?_⟩
    · exact (sha1hex_shape (encB info)).1
    · exact (sha1hex_shape (encB info)).2

/-- The `info` value of the witness metainfo blob, in canonical form. -/
def cexInfoVal : Bencode :=
  Bencode.dict [(strB "length", Bencode.int 5), (strB "name", Bencode.str (strB "abc"))]

/-- A well-formed single-file metainfo blob. -/
def cexTorrent : List Nat := strB "d4:infod6:lengthi5e4:name3:abcee"

/-- C4 witness: the concrete metainfo blob hashes to the SHA-1 of its
canonical `info` encoding, a 40-character lowercase hex string. -/
theorem calculateInfoHash_spec_witness :
    calculateInfoHash cexTorrent = Except.ok (sha1hex (encB cexInfoVal)) ∧
    (sha1hex (encB cexInfoVal)).length = 40 ∧
    (sha1hex (encB cexInfoVal)).all isLowerHexDigit = true :=
  (calculateInfoHash_spec cexTorrent).2 [(strB "info", cexInfoVal)] cexInfoVal
    (by decide) rfl rfl

end Stremfy
